import Mathlib

/-!
Shallow embedding of the campaign-dashboard core pipeline
(`src/campaign_dashboard/app.py`): schema normalization, the pandas
left merge, `to_datetime` / `to_numeric` coercion, `groupby(...).agg(sum)`,
derived ratio columns, and the sidebar filters.

Cells of a frame are modelled by `Cell`: strings, exact rationals
(standing for the float values flowing through the frame, whose
arithmetic is exact at every input considered here), calendar dates
(as an order-preserving integer code), the missing marker `nan`
(covering both NaN and NaT), and the two float infinities that pandas
division by zero produces.
-/

/-- A cell value of a dataframe. -/
inductive Cell
  | str (s : String)
  | num (q : ℚ)
  | date (d : ℤ)
  | nan
  | pinf
  | ninf
  deriving DecidableEq, Repr, Inhabited

/-- The missing marker (NaN / NaT). -/
def Cell.isNan : Cell → Bool
  | .nan => true
  | _ => false

/-- Exact rational arithmetic used along the computation path.  The
library's field operations on `ℚ` are irreducible, which would keep
the kernel from evaluating concrete runs, so the pipeline computes
with these wrappers; they are proved equal to the field operations
below (`qAdd_eq`, `qMul_eq`, `qDiv_eq`, `qSum_eq`). -/
def qAdd (a b : ℚ) : ℚ :=
  Rat.divInt (a.num * b.den + b.num * a.den) (a.den * b.den)

/-- Exact rational multiplication (see `qAdd`). -/
def qMul (a b : ℚ) : ℚ :=
  Rat.divInt (a.num * b.num) (a.den * b.den)

/-- Exact rational division (see `qAdd`); division by zero yields
zero, matching the library's convention — the pipeline never divides
by zero through this function, pandas division semantics being handled
in `pdDiv`. -/
def qDiv (a b : ℚ) : ℚ :=
  Rat.divInt (a.num * b.den) (a.den * b.num)

/-- Exact rational list sum (see `qAdd`). -/
def qSum (l : List ℚ) : ℚ :=
  l.foldr qAdd 0

/-- Constructor tag of a cell, ordering the dtypes.  A group-key
column holds one dtype at a time, so only the payload comparisons
below are ever exercised by a sort; the tag merely totalises the
order. -/
def Cell.tag : Cell → ℕ
  | .str _ => 0
  | .num _ => 1
  | .date _ => 2
  | .nan => 3
  | .pinf => 4
  | .ninf => 5

/-- Code-point lexicographic comparison of character lists, as Python
compares strings. -/
def charsLE : List Char → List Char → Bool
  | [], _ => true
  | _ :: _, [] => false
  | a :: as, b :: bs => if a = b then charsLE as bs else decide (a.toNat < b.toNat)

/-- Comparison of two cells of the same dtype. -/
def payloadLE : Cell → Cell → Bool
  | .str a, .str b => charsLE a.data b.data
  | .num a, .num b => !(Rat.blt b a)
  | .date a, .date b => decide (a ≤ b)
  | _, _ => true

/-- Total comparison of cells: dtype tag first, then the payload. -/
def cellLE (a b : Cell) : Bool :=
  if a.tag < b.tag then true
  else if b.tag < a.tag then false
  else payloadLE a b

/-- Lexicographic comparison of group-key tuples, component by
component: how pandas orders the group keys it sorts. -/
def keyLEb : List Cell → List Cell → Bool
  | [], _ => true
  | _ :: _, [] => false
  | a :: as, b :: bs => if a = b then keyLEb as bs else cellLE a b

/-- The ordering of group-key tuples as a relation. -/
def keyLE (a b : List Cell) : Prop :=
  keyLEb a b = true

instance : DecidableRel keyLE := fun a b =>
  inferInstanceAs (Decidable (keyLEb a b = true))

/-- The whitespace characters removed by Python `str.strip()`
(the ASCII ones, which are the only ones occurring in sheet headers). -/
def isPySpace (c : Char) : Bool :=
  c = ' ' || c = '\t' || c = '\n' || c = '\r' || c = '\x0b' || c = '\x0c'

/-- Remove leading and trailing whitespace from a character list. -/
def stripChars (l : List Char) : List Char :=
  ((l.dropWhile isPySpace).reverse.dropWhile isPySpace).reverse

/-- `str.strip()` on a column name, as applied by
`df.columns.str.strip()`. -/
def stripName (s : String) : String :=
  ⟨stripChars s.data⟩

/-- Numeric value of a digit list (most significant first). -/
def digitsVal (l : List Char) : ℕ :=
  l.foldl (fun acc c => acc * 10 + (c.toNat - 48)) 0

/-- Parse an unsigned decimal integer: all characters must be digits
and there must be at least one. -/
def parseDigits (l : List Char) : Option ℕ :=
  if l ≠ [] && l.all Char.isDigit then some (digitsVal l) else none

/-- Split a character list at a separator character. -/
def splitOnChar (sep : Char) (l : List Char) : List (List Char) :=
  match l with
  | [] => [[]]
  | c :: rest =>
    let r := splitOnChar sep rest
    if c = sep then [] :: r
    else match r with
      | [] => [[c]]
      | g :: gs => (c :: g) :: gs

/-- Parse a decimal number string (optional sign, integer part,
optional fractional part), the grammar `pd.to_numeric` accepts for the
metric cells that occur in the sheets.  Anything else is unparsable.
The value `sgn * (ip + fp / 10 ^ len)` is built as one exact integer
fraction. -/
def parseRat (s : String) : Option ℚ :=
  let l := s.data
  let (sgn, body) : ℤ × List Char :=
    match l with
    | '-' :: rest => (-1, rest)
    | '+' :: rest => (1, rest)
    | _ => (1, l)
  match splitOnChar '.' body with
  | [ip] =>
    match parseDigits ip with
    | some n => some (Rat.divInt (sgn * n) 1)
    | none => none
  | [ip, fp] =>
    match parseDigits ip, parseDigits fp with
    | some n, some f =>
      some (Rat.divInt (sgn * (n * 10 ^ fp.length + f)) (10 ^ fp.length))
    | _, _ => none
  | _ => none

/-- `pd.to_numeric(column, errors="coerce")` on one cell: numbers pass
through, parsable strings become numbers, everything else becomes the
missing marker. -/
def toNumeric : Cell → Cell
  | .num q => .num q
  | .pinf => .pinf
  | .ninf => .ninf
  | .str s =>
    match parseRat s with
    | some q => .num q
    | none => .nan
  | _ => .nan

/-- Order-preserving integer code of a calendar day. -/
def dayCode (y m d : ℕ) : ℤ :=
  ((y * 13 + m) * 32 + d : ℕ)

/-- Parse an ISO `YYYY-MM-DD` date string, the format the sheets use. -/
def parseYMD (s : String) : Option ℤ :=
  match splitOnChar '-' s.data with
  | [ys, ms, ds] =>
    match parseDigits ys, parseDigits ms, parseDigits ds with
    | some y, some m, some d =>
      if 1 ≤ m && m ≤ 12 && 1 ≤ d && d ≤ 31 then some (dayCode y m d) else none
    | _, _, _ => none
  | _ => none

/-- `pd.to_datetime(cell, errors="coerce")` on the cells occurring in
the `Date` column: dates pass through, parsable date strings become
dates, everything else becomes the missing marker (NaT). -/
def toDatetime : Cell → Cell
  | .date d => .date d
  | .str s =>
    match parseYMD s with
    | some d => .date d
    | none => .nan
  | _ => .nan

/-- A dataframe: a column-name list and rows of cells.  Column names
may repeat (pandas allows duplicate labels); positional cell access
uses the first occurrence of a label, as `df[name]` does. -/
structure Table where
  cols : List String
  rows : List (List Cell)
  deriving DecidableEq, Repr, Inhabited

/-- Index of the first occurrence of a column label. -/
def colIdx (cols : List String) (c : String) : Option ℕ :=
  cols.findIdx? (fun x => x = c)

/-- Cell at an optional index (missing column or short row reads as
the missing marker; both situations are outside the pandas-defined
region and never arise in the runs the theorems quantify over). -/
def cellAt (r : List Cell) : Option ℕ → Cell
  | some i => r.getD i .nan
  | none => .nan

/-- Value of column `c` in row `r` of a frame with columns `cols`. -/
def lookupCell (cols : List String) (c : String) (r : List Cell) : Cell :=
  cellAt r (colIdx cols c)

/-- `df.columns.str.strip()` on the label list. -/
def stripNames (cols : List String) : List String :=
  cols.map stripName

/-- `df.rename(columns=\x7ba: b\x7d)` on the label list: every
occurrence of `a` is relabelled `b`. -/
def renameName (a b : String) (cols : List String) : List String :=
  cols.map (fun c => if c = a then b else c)

/-- Line 64-65: `if "Campaign ID" in churn_df.columns: rename to
"Camp_ID"` — conditioned only on the alias being present. -/
def campaignRename (cols : List String) : List String :=
  if "Campaign ID" ∈ cols then renameName "Campaign ID" "Camp_ID" cols else cols

/-- Line 66-67: `if "Project" in columns and "Project Name" not in
columns: rename "Project" to "Project Name"`. -/
def projectRename (cols : List String) : List String :=
  if "Project" ∈ cols ∧ "Project Name" ∉ cols then
    renameName "Project" "Project Name" cols
  else cols

/-- `df.columns = df.columns.str.strip()` as a frame transform. -/
def stripCols (t : Table) : Table :=
  { cols := stripNames t.cols, rows := t.rows }

/-- `df.rename(columns=\x7ba: b\x7d, inplace=True)` as a frame
transform. -/
def renameCol (t : Table) (a b : String) : Table :=
  { cols := renameName a b t.cols, rows := t.rows }

/-- The metric columns the aggregation loop (line 90) coerces and
sums. -/
def agg_metric_cols : List String :=
  ["Sent", "Delivered", "Read", "Lead Count", "Replied"]

/-- The metric columns present in a frame, in loop order: the keys of
`agg_dict` (lines 89-93). -/
def presentMetrics (cols : List String) : List String :=
  agg_metric_cols.filter (fun c => decide (c ∈ cols))

/-- Lines 90-92: `df[col] = pd.to_numeric(df[col], errors="coerce")`
for each metric column present. -/
def coerceMetrics (t : Table) : Table :=
  { cols := t.cols,
    rows := t.rows.map (fun r =>
      List.zipWith (fun c v => if c ∈ agg_metric_cols then toNumeric v else v) t.cols r) }

/-- Line 81: `df["Date"] = pd.to_datetime(df["Date"], errors="coerce")`. -/
def parseDates (t : Table) : Table :=
  { cols := t.cols,
    rows := t.rows.map (fun r =>
      List.zipWith (fun c v => if c = "Date" then toDatetime v else v) t.cols r) }

/-- The label list after normalization: header strip (lines 61-62)
then the two alias renames (lines 64-67). -/
def normCols (cols : List String) : List String :=
  projectRename (campaignRename (stripNames cols))

/-- One cell of a normalized row: metric columns are coerced with
`pd.to_numeric(..., errors="coerce")` (lines 90-92), other columns are
untouched. -/
def coerceCell (c : String) (v : Cell) : Cell :=
  if c ∈ agg_metric_cols then toNumeric v else v

/-- The Schema Normalizer of spec section 4.1, assembled from the
source operations it was specified from: header strip (lines 61-62),
the two alias renames (lines 64-67), numeric coercion of the metric
columns (lines 90-92). -/
def normalizeTable (t : Table) : Table :=
  { cols := normCols t.cols,
    rows := t.rows.map (fun r => List.zipWith coerceCell (normCols t.cols) r) }

/-- The typed failures of one summary computation: the uncaught pandas
`KeyError` (merge on a missing key, line 69, or a missing group column
at line 99), the missing-`Date` report of lines 73-76 (the only one
that carries the frame's column list), and the empty-`agg_dict` report
of lines 95-97. -/
inductive PrepError
  | keyError (key : String)
  | dateNotFound (cols : List String)
  | noNumericCols
  deriving DecidableEq, Repr

deriving instance DecidableEq for Except

/-- The column list carried by an error report: only the
missing-`Date` report (line 75) prints one. -/
def errorColumns : PrepError → Option (List String)
  | .dateNotFound cols => some cols
  | _ => none

/-- Drop the cell at an optional index. -/
def dropIdx (r : List Cell) : Option ℕ → List Cell
  | some i => r.eraseIdx i
  | none => r

/-- Line 69: `churn_df.merge(cs_df, on="Camp_ID", how="left")`.
Raises `KeyError` when either frame lacks the key; otherwise keeps
every left row, repeating it for each matching right row, with the
right frame's non-key cells appended (missing markers when no right
row matches).  Labels shared by both frames (other than the key) get
the `_x`/`_y` suffixes. -/
def mergeTables (t1 t2 : Table) : Except PrepError Table :=
  if "Camp_ID" ∈ t1.cols ∧ "Camp_ID" ∈ t2.cols then
    let ki := colIdx t2.cols "Camp_ID"
    let rcols := t2.cols.erase "Camp_ID"
    let lcols := t1.cols.map (fun c =>
      if c ≠ "Camp_ID" ∧ c ∈ t2.cols then c ++ "_x" else c)
    let rcols2 := rcols.map (fun c =>
      if c ≠ "Camp_ID" ∧ c ∈ t1.cols then c ++ "_y" else c)
    .ok { cols := lcols ++ rcols2,
          rows := (t1.rows.map (fun r1 =>
            let k := lookupCell t1.cols "Camp_ID" r1
            let ms := t2.rows.filter (fun r2 =>
              decide (lookupCell t2.cols "Camp_ID" r2 = k))
            match ms with
            | [] => [r1 ++ List.replicate rcols2.length Cell.nan]
            | _ => ms.map (fun r2 => r1 ++ dropIdx r2 ki))).flatten }
  else .error (.keyError "Camp_ID")

/-- Lines 83-87: the group-dimension list, always
`Date, Camp_ID, Project Name`, extended with the optional dimensions
when their columns are present. -/
def group_cols (cols : List String) : List String :=
  ["Date", "Camp_ID", "Project Name"]
    ++ (if "Audience_ID" ∈ cols then ["Audience_ID"] else [])
    ++ (if "Objectives" ∈ cols then ["Objectives"] else [])

/-- The group-key tuple of one row. -/
def rowKey (cols : List String) (r : List Cell) : List Cell :=
  (group_cols cols).map (fun c => lookupCell cols c r)

/-- A key tuple with no missing component.  `groupby` with its default
`dropna=True` keeps exactly the rows whose key is fully non-null. -/
def validKey (k : List Cell) : Bool :=
  !(k.any Cell.isNan)

/-- The rows `groupby` keeps (default `dropna=True`). -/
def keptRows (t : Table) : List (List Cell) :=
  t.rows.filter (fun r => validKey (rowKey t.cols r))

/-- The distinct group keys, in first-encounter order. -/
def groupKeys (t : Table) : List (List Cell) :=
  ((keptRows t).map (rowKey t.cols)).dedup

/-- The group keys in ascending lexicographic order (`groupby` default
`sort=True`). -/
def sortedKeys (t : Table) : List (List Cell) :=
  (groupKeys t).insertionSort keyLE

/-- Numeric value a cell contributes to a sum: pandas `sum` skips the
missing marker, and an all-missing group sums to zero. -/
def cellQ : Cell → ℚ
  | .num q => q
  | _ => 0

/-- Sum of metric `m` over the rows of group `k`. -/
def groupSum (t : Table) (m : String) (k : List Cell) : ℚ :=
  qSum ((t.rows.filter (fun r => decide (rowKey t.cols r = k))).map
    (fun r => cellQ (lookupCell t.cols m r)))

/-- Line 99: `df.groupby(group_cols).agg(agg_dict).reset_index()` —
one output row per distinct fully-non-null key, keys sorted ascending,
each metric summed with missing cells skipped. -/
def groupbyAgg (t : Table) : Table :=
  { cols := group_cols t.cols ++ presentMetrics t.cols,
    rows := (sortedKeys t).map (fun k =>
      k ++ (presentMetrics t.cols).map (fun m => Cell.num (groupSum t m k))) }

/-- Round to the nearest integer, ties to the even neighbour: the
rounding `numpy` (and hence `Series.round`) uses, evaluated exactly on
the rational values the pipeline produces.  The fractional part
`q - ⌊q⌋` equals `(q.num - ⌊q⌋ * q.den) / q.den` with positive
denominator, so comparing it with `1 / 2` is comparing
`2 * (q.num - ⌊q⌋ * q.den)` with `q.den`. -/
def roundHalfEven (q : ℚ) : ℤ :=
  let f := ⌊q⌋
  let twice := 2 * (q.num - f * q.den)
  if twice < (q.den : ℤ) then f
  else if (q.den : ℤ) < twice then f + 1
  else if f % 2 = 0 then f else f + 1

/-- `Series.round(2)`: scale by 100, round half-to-even, scale back. -/
def round2 (q : ℚ) : ℚ :=
  Rat.divInt (roundHalfEven (qMul q 100)) 100

/-- Elementwise float division of two summed metric cells, as pandas
evaluates `summary[a] / summary[b]`: `0 / 0` is NaN and `x / 0` is a
signed infinity, never an exception. -/
def pdDiv : Cell → Cell → Cell
  | .num a, .num b =>
    if b = 0 then (if a = 0 then .nan else if 0 < a then .pinf else .ninf)
    else .num (qDiv a b)
  | _, _ => .nan

/-- Elementwise `* 100`: finite values scale, NaN and the infinities
propagate. -/
def pdMul100 : Cell → Cell
  | .num a => .num (qMul a 100)
  | .pinf => .pinf
  | .ninf => .ninf
  | _ => .nan

/-- Elementwise `.round(2)`: finite values round half-to-even, NaN and
the infinities pass through. -/
def pdRound2 : Cell → Cell
  | .num q => .num (round2 q)
  | c => c

/-- `summary[name] = column`: overwrite the column if the label
exists, else append it on the right. -/
def setCol (t : Table) (name : String) (f : List Cell → Cell) : Table :=
  match colIdx t.cols name with
  | some i => { cols := t.cols, rows := t.rows.map (fun r => r.set i (f r)) }
  | none => { cols := t.cols ++ [name], rows := t.rows.map (fun r => r ++ [f r]) }

/-- Lines 101-105: the Metric Deriver — add `Reply %` and
`Delivery %` as `(numerator / Sent * 100).round(2)` whenever both
columns are present in the summary. -/
def addDerived (t : Table) : Table :=
  let t1 :=
    if "Replied" ∈ t.cols ∧ "Sent" ∈ t.cols then
      setCol t "Reply %" (fun r =>
        pdRound2 (pdMul100 (pdDiv (lookupCell t.cols "Replied" r)
          (lookupCell t.cols "Sent" r))))
    else t
  if "Delivered" ∈ t1.cols ∧ "Sent" ∈ t1.cols then
    setCol t1 "Delivery %" (fun r =>
      pdRound2 (pdMul100 (pdDiv (lookupCell t1.cols "Delivered" r)
        (lookupCell t1.cols "Sent" r))))
  else t1

/-- Lines 61-67 applied to the churn frame: header strip, then the two
alias renames (performed in place by the source, so this is also the
state of the caller's churn frame after `prepare_summary`). -/
def normalizedChurn (churn : Table) : Table :=
  let c1 := stripCols churn
  let c2 := if "Campaign ID" ∈ c1.cols then renameCol c1 "Campaign ID" "Camp_ID" else c1
  if "Project" ∈ c2.cols ∧ "Project Name" ∉ c2.cols then
    renameCol c2 "Project" "Project Name"
  else c2

/-- Lines 69-99 up to the `groupby` input: merge, `Date` resolution
(rename `Date_x`, or report the column list and stop when no `Date`
exists), `Project Name_x` resolution, date parsing, metric coercion,
the empty-`agg_dict` report, and the `KeyError` that `groupby` raises
when a required group column is absent. -/
def mergedFrame (churn cs : Table) : Except PrepError Table := do
  let df0 ← mergeTables (normalizedChurn churn) (stripCols cs)
  let df1 ←
    if "Date_x" ∈ df0.cols then Except.ok (renameCol df0 "Date_x" "Date")
    else if "Date" ∈ df0.cols then Except.ok df0
    else Except.error (.dateNotFound df0.cols)
  let df2 := if "Project Name_x" ∈ df1.cols then renameCol df1 "Project Name_x" "Project Name" else df1
  let df3 := coerceMetrics (parseDates df2)
  if (presentMetrics df3.cols).isEmpty then Except.error .noNumericCols
  else
    match ["Date", "Camp_ID", "Project Name"].filter (fun c => decide (c ∉ df3.cols)) with
    | [] => Except.ok df3
    | c :: _ => Except.error (.keyError c)

/-- Lines 60-107, `prepare_summary(churn_df, cs_df)`.  The source
mutates both arguments in place (the `columns` assignment on lines
61-62 and the `inplace=True` renames on lines 64-67), so the embedding
returns the post-call states of the two argument frames together with
the computed summary. -/
def prepare_summary (churn cs : Table) : Table × Table × Except PrepError Table :=
  (normalizedChurn churn, stripCols cs,
    (mergedFrame churn cs).map (fun df => addDerived (groupbyAgg df)))

/-- Keep the rows satisfying a predicate (a boolean-mask selection,
which builds a new frame). -/
def rowFilter (t : Table) (p : List Cell → Bool) : Table :=
  { cols := t.cols, rows := t.rows.filter p }

/-- `(row.Date >= start) & (row.Date <= end)`: comparisons against NaT
(or a non-date cell) are false. -/
def dateBetween (c : Cell) (s e : ℤ) : Bool :=
  match c with
  | .date d => decide (s ≤ d) && decide (d ≤ e)
  | _ => false

/-- Lines 129-131: the date-range filter runs only when the widget
value is a two-element list. -/
def stepDate (dr : List ℤ) (t : Table) : Table :=
  match dr with
  | [s, e] => rowFilter t (fun r => dateBetween (lookupCell t.cols "Date" r) s e)
  | _ => t

/-- Lines 133-134: `if campaign_filter:` — an empty selection filters
nothing; otherwise keep the rows whose `Camp_ID` is selected. -/
def stepCamp (cf : List Cell) (t : Table) : Table :=
  if cf = [] then t
  else rowFilter t (fun r => decide (lookupCell t.cols "Camp_ID" r ∈ cf))

/-- Lines 136-137: the `Project Name` filter, same empty-means-no-op
semantics. -/
def stepProj (pf : List Cell) (t : Table) : Table :=
  if pf = [] then t
  else rowFilter t (fun r => decide (lookupCell t.cols "Project Name" r ∈ pf))

/-- Lines 127-137: the filter block, in source order — date range,
then campaign selection, then project selection, starting from a copy
of the summary. -/
def filtered_df (t : Table) (dr : List ℤ) (cf pf : List Cell) : Table :=
  stepProj pf (stepCamp cf (stepDate dr t))

/-- The date-range predicate of lines 129-131 as a row predicate
(vacuously true when the range widget does not hold two dates). -/
def dateP (cols : List String) (dr : List ℤ) (r : List Cell) : Bool :=
  match dr with
  | [s, e] => dateBetween (lookupCell cols "Date" r) s e
  | _ => true

/-- The campaign-selection predicate of lines 133-134 as a row
predicate (vacuously true for an empty selection). -/
def campP (cols : List String) (cf : List Cell) (r : List Cell) : Bool :=
  cf.isEmpty || decide (lookupCell cols "Camp_ID" r ∈ cf)

/-- The project-selection predicate of lines 136-137 as a row
predicate (vacuously true for an empty selection). -/
def projP (cols : List String) (pf : List Cell) (r : List Cell) : Bool :=
  pf.isEmpty || decide (lookupCell cols "Project Name" r ∈ pf)

/-- The half-away-from-zero integer rounding named by the spec
(section 4.4: "half-away-from-zero to 2 decimal places"), written to
compare the code's rounding against. -/
def roundHalfAway (q : ℚ) : ℤ :=
  if 0 ≤ q then ⌊q + 1 / 2⌋ else -⌊-q + 1 / 2⌋

/-- The spec's rounding of section 4.4 at 2 decimal places. -/
def specRoundHalfAwayTo2 (q : ℚ) : ℚ :=
  (roundHalfAway (q * 100) : ℚ) / 100

/-- A concrete churn frame: two campaigns, a padded alias header, raw
string cells as fetched. -/
def exChurn : Table :=
  { cols := [" Campaign ID ", "Date", "Project Name", "Sent", "Replied"],
    rows := [[.str "C2", .str "2024-01-02", .str "P", .str "10", .str "1"],
             [.str "C1", .str "2024-01-01", .str "P", .str "100", .str "10"]] }

/-- A concrete cost frame carrying only the join key. -/
def exCs : Table := { cols := ["Camp_ID"], rows := [[.str "C1"]] }

/-- The merged frame `prepare_summary` builds from `exChurn` and
`exCs`, as evaluated by the model. -/
def exDf : Table :=
  { cols := ["Camp_ID", "Date", "Project Name", "Sent", "Replied"],
    rows := [[.str "C2", .date 842018, .str "P", .num 10, .num 1],
             [.str "C1", .date 842017, .str "P", .num 100, .num 10]] }

/-- The summary `prepare_summary` returns on `exChurn` and `exCs`. -/
def exSummary : Table :=
  { cols := ["Date", "Camp_ID", "Project Name", "Sent", "Replied", "Reply %"],
    rows := [[.date 842017, .str "C1", .str "P", .num 100, .num 10, .num 10],
             [.date 842018, .str "C2", .str "P", .num 10, .num 1, .num 10]] }

/-- A churn frame whose only row has `Sent` 0 and `Delivered` 3. -/
def cexC1Churn : Table :=
  { cols := ["Camp_ID", "Date", "Project Name", "Sent", "Delivered"],
    rows := [[.str "C1", .str "2024-01-02", .str "P", .str "0", .str "3"]] }

/-- The summary computed from `cexC1Churn` and `exCs`: the zero-`Sent`
group's `Delivery %` is positive infinity. -/
def cexC1Summary : Table :=
  { cols := ["Date", "Camp_ID", "Project Name", "Sent", "Delivered", "Delivery %"],
    rows := [[.date 842018, .str "C1", .str "P", .num 0, .num 3, .pinf]] }

/-- A summary-shaped frame with a zero-`Sent` row, fed to the Metric
Deriver directly. -/
def witC1T : Table :=
  { cols := ["Sent", "Replied", "Delivered"], rows := [[.num 0, .num 2, .num 3]] }

/-- A summary-shaped frame on which the rounding of the derived ratio
is a tie at the third decimal: `1 / 32 * 100 = 3.125`. -/
def cexRoundT : Table :=
  { cols := ["Sent", "Replied"], rows := [[.num 32, .num 1]] }

/-- A summary-shaped frame carrying all three metric columns, so both
derived ratios are computed: `Reply %` hits the `3.125` tie and
`Delivery %` is the exact `50`. -/
def witC5T : Table :=
  { cols := ["Sent", "Replied", "Delivered"], rows := [[.num 32, .num 1, .num 16]] }

/-- A churn frame whose only row has an unparsable date. -/
def cexNullChurn : Table :=
  { cols := ["Camp_ID", "Date", "Project Name", "Sent"],
    rows := [[.str "C1", .str "banana", .str "P", .str "5"]] }

/-- A merged-and-coerced frame whose only row has a null date key and
a valid `Sent` value. -/
def cexNullMerged : Table :=
  { cols := ["Date", "Camp_ID", "Project Name", "Sent"],
    rows := [[.nan, .str "C1", .str "P", .num 5]] }

/-- A merged-shaped frame with two rows in one group, for
instantiating the aggregation theorems. -/
def witAggT : Table :=
  { cols := ["Date", "Camp_ID", "Project Name", "Sent"],
    rows := [[.date 1, .str "A", .str "P", .num 2],
             [.date 1, .str "A", .str "P", .num 3]] }

/-- A churn frame lacking any campaign-id column. -/
def exNoKeyChurn : Table :=
  { cols := ["Foo", "Date"], rows := [] }

/-- A cost frame carrying the join key (the churn side is the one
missing it). -/
def exNoKeyCs : Table := { cols := ["Camp_ID"], rows := [] }

/-- A churn frame whose header carries whitespace and the alias name:
`prepare_summary` renames it in place. -/
def exMutChurn : Table :=
  { cols := [" Campaign ID "], rows := [[.str "x"]] }

/-! ### The streamlit sidebar inputs and concrete frames used by the
witnesses and counterexamples are defined with the model above; the
development's theorems follow. -/

theorem qAdd_eq (a b : ℚ) : qAdd a b = a + b := by
  rw [qAdd, ← Rat.divInt_add_divInt _ _
    (Int.natCast_ne_zero.mpr a.den_nz) (Int.natCast_ne_zero.mpr b.den_nz),
    Rat.num_divInt_den, Rat.num_divInt_den]

theorem qMul_eq (a b : ℚ) : qMul a b = a * b := by
  rw [qMul, ← Rat.divInt_mul_divInt', Rat.num_divInt_den, Rat.num_divInt_den]

theorem qDiv_eq (a b : ℚ) : qDiv a b = a / b := by
  rw [qDiv, div_eq_mul_inv]
  conv_rhs => rw [← Rat.num_divInt_den a, ← Rat.num_divInt_den b, Rat.inv_divInt',
    Rat.divInt_mul_divInt']

theorem qSum_eq (l : List ℚ) : qSum l = l.sum := by
  induction l with
  | nil => rfl
  | cons a l ih => rw [qSum, List.foldr_cons, qAdd_eq, ← qSum, ih, List.sum_cons]

theorem char_toNat_inj {a b : Char} (h : a.toNat = b.toNat) : a = b := by
  rw [← Char.ofNat_toNat a, ← Char.ofNat_toNat b, h]

theorem charsLE_total : ∀ a b : List Char, charsLE a b = true ∨ charsLE b a = true
  | [], _ => Or.inl rfl
  | _ :: _, [] => Or.inr rfl
  | a :: as, b :: bs => by
    by_cases h : a = b
    · subst h
      simpa only [charsLE, if_pos rfl] using charsLE_total as bs
    · have h2 : ¬ b = a := fun e => h e.symm
      simp only [charsLE, if_neg h, if_neg h2, decide_eq_true_eq]
      rcases Nat.lt_trichotomy a.toNat b.toNat with hl | he | hg
      · exact Or.inl hl
      · exact absurd (char_toNat_inj he) h
      · exact Or.inr hg

theorem charsLE_trans : ∀ {a b c : List Char},
    charsLE a b = true → charsLE b c = true → charsLE a c = true
  | [], _, _, _, _ => rfl
  | a :: as, b :: bs, c :: cs, h1, h2 => by
    by_cases hab : a = b
    · subst hab
      by_cases hbc : a = c
      · subst hbc
        simp only [charsLE, if_pos rfl] at h1 h2 ⊢
        exact charsLE_trans h1 h2
      · simpa only [charsLE, if_neg hbc] using h2
    · by_cases hbc : b = c
      · subst hbc
        simpa only [charsLE, if_neg hab] using h1
      · simp only [charsLE, if_neg hab, if_neg hbc, decide_eq_true_eq] at h1 h2
        by_cases hac : a = c
        · subst hac
          omega
        · simp only [charsLE, if_neg hac, decide_eq_true_eq]
          omega

theorem charsLE_antisymm : ∀ {a b : List Char},
    charsLE a b = true → charsLE b a = true → a = b
  | [], [], _, _ => rfl
  | a :: as, b :: bs, h1, h2 => by
    by_cases hab : a = b
    · subst hab
      simp only [charsLE, if_pos rfl] at h1 h2
      rw [charsLE_antisymm h1 h2]
    · have h2' : ¬ b = a := fun e => hab e.symm
      simp only [charsLE, if_neg hab, if_neg h2', decide_eq_true_eq] at h1 h2
      omega

theorem ratLeB_trans {a b c : ℚ} (h1 : Rat.blt b a = false) (h2 : Rat.blt c b = false) :
    Rat.blt c a = false :=
  le_trans (show a ≤ b from h1) (show b ≤ c from h2)

theorem ratLeB_total (a b : ℚ) : Rat.blt b a = false ∨ Rat.blt a b = false :=
  le_total a b

theorem ratLeB_antisymm {a b : ℚ} (h1 : Rat.blt b a = false) (h2 : Rat.blt a b = false) :
    a = b :=
  le_antisymm (show a ≤ b from h1) (show b ≤ a from h2)

theorem payloadLE_total (a b : Cell) : payloadLE a b = true ∨ payloadLE b a = true := by
  cases a <;> cases b <;>
    simp only [payloadLE, Bool.not_eq_true', decide_eq_true_eq] <;>
    first
    | exact Or.inl trivial
    | exact Or.inl rfl
    | exact charsLE_total _ _
    | exact ratLeB_total _ _
    | omega

theorem cellLE_iff {a b : Cell} : cellLE a b = true ↔
    a.tag < b.tag ∨ (a.tag = b.tag ∧ payloadLE a b = true) := by
  unfold cellLE
  by_cases h1 : a.tag < b.tag
  · simp [h1]
  · rw [if_neg h1]
    by_cases h2 : b.tag < a.tag
    · rw [if_pos h2]
      constructor
      · intro h
        exact absurd h (by simp)
      · rintro (h | ⟨h, _⟩) <;> omega
    · have ht : a.tag = b.tag := by omega
      rw [if_neg h2]
      simp [ht]

theorem cellLE_total (a b : Cell) : cellLE a b = true ∨ cellLE b a = true := by
  rcases Nat.lt_trichotomy a.tag b.tag with h | h | h
  · exact Or.inl (cellLE_iff.mpr (Or.inl h))
  · rcases payloadLE_total a b with hp | hp
    · exact Or.inl (cellLE_iff.mpr (Or.inr ⟨h, hp⟩))
    · exact Or.inr (cellLE_iff.mpr (Or.inr ⟨h.symm, hp⟩))
  · exact Or.inr (cellLE_iff.mpr (Or.inl h))

theorem payloadLE_trans {a b c : Cell} (hab : a.tag = b.tag) (hbc : b.tag = c.tag)
    (h1 : payloadLE a b = true) (h2 : payloadLE b c = true) : payloadLE a c = true := by
  cases a <;> cases b <;> cases c <;>
    (try simp_all only [payloadLE, Cell.tag, Bool.not_eq_true', decide_eq_true_eq]) <;>
    first
    | rfl
    | trivial
    | omega
    | exact charsLE_trans h1 h2
    | exact ratLeB_trans h1 h2

theorem payloadLE_antisymm {a b : Cell} (hab : a.tag = b.tag)
    (h1 : payloadLE a b = true) (h2 : payloadLE b a = true) : a = b := by
  cases a <;> cases b <;>
    (try simp_all only [payloadLE, Cell.tag, Bool.not_eq_true', decide_eq_true_eq]) <;>
    first
    | rfl
    | trivial
    | omega
    | exact congrArg Cell.str (congrArg String.mk (charsLE_antisymm h1 h2))
    | exact congrArg Cell.num (ratLeB_antisymm h1 h2)
    | exact congrArg Cell.date (by omega)

theorem cellLE_trans {a b c : Cell} (h1 : cellLE a b = true) (h2 : cellLE b c = true) :
    cellLE a c = true := by
  rcases cellLE_iff.mp h1 with t1 | ⟨t1, p1⟩ <;> rcases cellLE_iff.mp h2 with t2 | ⟨t2, p2⟩
  · exact cellLE_iff.mpr (Or.inl (by omega))
  · exact cellLE_iff.mpr (Or.inl (by omega))
  · exact cellLE_iff.mpr (Or.inl (by omega))
  · exact cellLE_iff.mpr (Or.inr ⟨by omega, payloadLE_trans t1 t2 p1 p2⟩)

theorem cellLE_antisymm {a b : Cell} (h1 : cellLE a b = true) (h2 : cellLE b a = true) :
    a = b := by
  rcases cellLE_iff.mp h1 with t1 | ⟨t1, p1⟩ <;> rcases cellLE_iff.mp h2 with t2 | ⟨t2, p2⟩ <;>
    first
    | omega
    | exact payloadLE_antisymm t1 p1 p2

theorem keyLEb_total : ∀ a b : List Cell, keyLEb a b = true ∨ keyLEb b a = true
  | [], _ => Or.inl rfl
  | _ :: _, [] => Or.inr rfl
  | a :: as, b :: bs => by
    by_cases h : a = b
    · subst h
      simpa only [keyLEb, if_pos rfl] using keyLEb_total as bs
    · have h2 : ¬ b = a := fun e => h e.symm
      simp only [keyLEb, if_neg h, if_neg h2]
      exact cellLE_total a b

theorem keyLEb_trans : ∀ {a b c : List Cell},
    keyLEb a b = true → keyLEb b c = true → keyLEb a c = true
  | [], _, _, _, _ => rfl
  | a :: as, b :: bs, c :: cs, h1, h2 => by
    by_cases hab : a = b
    · subst hab
      by_cases hbc : a = c
      · subst hbc
        simp only [keyLEb, if_pos rfl] at h1 h2 ⊢
        exact keyLEb_trans h1 h2
      · simpa only [keyLEb, if_neg hbc] using h2
    · by_cases hbc : b = c
      · subst hbc
        simpa only [keyLEb, if_neg hab] using h1
      · simp only [keyLEb, if_neg hab, if_neg hbc] at h1 h2
        by_cases hac : a = c
        · subst hac
          exact absurd (cellLE_antisymm h1 h2) hab
        · simpa only [keyLEb, if_neg hac] using cellLE_trans h1 h2

instance : IsTotal (List Cell) keyLE :=
  ⟨fun a b => keyLEb_total a b⟩

instance : IsTrans (List Cell) keyLE :=
  ⟨fun _ _ _ h1 h2 => keyLEb_trans h1 h2⟩

theorem dropWhile_idem {α : Type} (p : α → Bool) : ∀ l : List α,
    (l.dropWhile p).dropWhile p = l.dropWhile p
  | [] => rfl
  | a :: l => by
    by_cases h : p a
    · simp only [List.dropWhile_cons, if_pos h]
      exact dropWhile_idem p l
    · simp only [List.dropWhile_cons, if_neg h]

theorem dropWhile_self_head {α : Type} {p : α → Bool} {c : α} {rest : List α}
    (h : (c :: rest).dropWhile p = c :: rest) : p c = false := by
  by_cases hc : p c
  · exfalso
    rw [List.dropWhile_cons_of_pos hc] at h
    have hlen := (List.dropWhile_sublist (p := p) (l := rest)).length_le
    rw [h] at hlen
    simp at hlen
  · exact eq_false_of_ne_true hc

theorem stripChars_idem (l : List Char) : stripChars (stripChars l) = stripChars l := by
  unfold stripChars
  generalize hA : l.dropWhile isPySpace = A
  have hAA : A.dropWhile isPySpace = A := by rw [← hA]; exact dropWhile_idem _ l
  obtain ⟨s, hs⟩ := List.dropWhile_suffix (l := A.reverse) isPySpace
  have hBA : (A.reverse.dropWhile isPySpace).reverse ++ s.reverse = A := by
    have h2 := congrArg List.reverse hs
    simpa [List.reverse_append] using h2
  have step1 : ((A.reverse.dropWhile isPySpace).reverse).dropWhile isPySpace
      = (A.reverse.dropWhile isPySpace).reverse := by
    cases hB : (A.reverse.dropWhile isPySpace).reverse with
    | nil => rfl
    | cons c u =>
      have hAcu : A = c :: (u ++ s.reverse) := by
        rw [← hBA, hB]
        simp
      have hc : isPySpace c = false := by
        have h3 : (c :: (u ++ s.reverse)).dropWhile isPySpace = c :: (u ++ s.reverse) := by
          rw [← hAcu]
          exact hAA
        exact dropWhile_self_head h3
      exact List.dropWhile_cons_of_neg (by simp [hc])
  rw [step1, List.reverse_reverse, dropWhile_idem]

theorem stripName_idem (s : String) : stripName (stripName s) = stripName s :=
  congrArg String.mk (stripChars_idem s.data)

theorem stripNames_fixed {cols : List String} (h : ∀ x ∈ cols, stripName x = x) :
    stripNames cols = cols := by
  unfold stripNames
  exact List.map_congr_left h |>.trans (List.map_id cols)

theorem mem_renameName {a b x : String} {cols : List String} (h : x ∈ renameName a b cols) :
    x = b ∨ x ∈ cols := by
  unfold renameName at h
  obtain ⟨c, hc, he⟩ := List.mem_map.mp h
  by_cases hca : c = a
  · rw [if_pos hca] at he
    exact Or.inl he.symm
  · rw [if_neg hca] at he
    exact Or.inr (he ▸ hc)

theorem mem_campaignRename {x : String} {cols : List String} (h : x ∈ campaignRename cols) :
    x = "Camp_ID" ∨ x ∈ cols := by
  unfold campaignRename at h
  split_ifs at h
  · exact mem_renameName h
  · exact Or.inr h

theorem mem_projectRename {x : String} {cols : List String} (h : x ∈ projectRename cols) :
    x = "Project Name" ∨ x ∈ cols := by
  unfold projectRename at h
  split_ifs at h
  · exact mem_renameName h
  · exact Or.inr h

theorem not_mem_renameName_of_target {a b : String} (hab : b ≠ a) (cols : List String) :
    a ∉ renameName a b cols := by
  intro h
  obtain ⟨c, _, he⟩ := List.mem_map.mp h
  by_cases hca : c = a
  · rw [if_pos hca] at he
    exact hab he
  · rw [if_neg hca] at he
    exact hca he

theorem campaignID_not_mem_campaignRename (cols : List String) :
    "Campaign ID" ∉ campaignRename cols := by
  unfold campaignRename
  split_ifs with h
  · exact not_mem_renameName_of_target (by decide) cols
  · exact h

theorem campaignRename_of_not_mem {cols : List String} (h : "Campaign ID" ∉ cols) :
    campaignRename cols = cols := by
  unfold campaignRename
  rw [if_neg h]

theorem project_not_mem_renamed (cols : List String) :
    "Project" ∉ renameName "Project" "Project Name" cols :=
  not_mem_renameName_of_target (by decide) cols

theorem projectRename_idem (cols : List String) :
    projectRename (projectRename cols) = projectRename cols := by
  by_cases h : "Project" ∈ cols ∧ "Project Name" ∉ cols
  · have hin : projectRename cols = renameName "Project" "Project Name" cols := by
      rw [projectRename, if_pos h]
    rw [hin, projectRename, if_neg (fun h2 => project_not_mem_renamed cols h2.1)]
  · have hin : projectRename cols = cols := by rw [projectRename, if_neg h]
    rw [hin]
    exact hin

theorem toNumeric_idem (c : Cell) : toNumeric (toNumeric c) = toNumeric c := by
  cases c with
  | str s => rcases hp : parseRat s with _ | q <;> simp [toNumeric, hp]
  | num q => rfl
  | date d => rfl
  | nan => rfl
  | pinf => rfl
  | ninf => rfl

theorem coerceCell_idem (c : String) (v : Cell) :
    coerceCell c (coerceCell c v) = coerceCell c v := by
  unfold coerceCell
  split_ifs with h
  · exact toNumeric_idem v
  · rfl

theorem zipWith_coerce_idem (cols : List String) (r : List Cell) :
    List.zipWith coerceCell cols (List.zipWith coerceCell cols r)
      = List.zipWith coerceCell cols r := by
  induction cols generalizing r with
  | nil => rfl
  | cons c cs ih =>
    cases r with
    | nil => rfl
    | cons v vs =>
      simp only [List.zipWith_cons_cons, coerceCell_idem, ih]

theorem normCols_fixed_names {x : String} {cols : List String} (h : x ∈ normCols cols) :
    stripName x = x := by
  rcases mem_projectRename h with h1 | h1
  · rw [h1]
    decide
  · rcases mem_campaignRename h1 with h2 | h2
    · rw [h2]
      decide
    · obtain ⟨c, _, he⟩ := List.mem_map.mp h2
      rw [← he]
      exact stripName_idem c

theorem normCols_idem (cols : List String) : normCols (normCols cols) = normCols cols := by
  have h1 : stripNames (normCols cols) = normCols cols :=
    stripNames_fixed (fun x hx => normCols_fixed_names hx)
  have h2 : "Campaign ID" ∉ normCols cols := by
    intro hmem
    rcases mem_projectRename hmem with h | h
    · exact absurd h (by decide)
    · exact campaignID_not_mem_campaignRename _ h
  rw [normCols, h1, campaignRename_of_not_mem h2]
  exact projectRename_idem _

theorem count_map_rename (a b : String) (hab : a ≠ b) : ∀ cols : List String,
    (cols.map (fun c => if c = a then b else c)).count b = cols.count b + cols.count a
  | [] => rfl
  | c :: cs => by
    have ih := count_map_rename a b hab cs
    by_cases hc : c = a
    · subst hc
      rw [List.map_cons, if_pos rfl, List.count_cons_self,
        List.count_cons_of_ne (fun h => hab h.symm), List.count_cons_self, ih]
      omega
    · rw [List.map_cons, if_neg hc, List.count_cons_of_ne (fun h => hc h.symm)]
      by_cases h2 : c = b
      · subst h2
        rw [List.count_cons_self, List.count_cons_self, ih]
        omega
      · rw [List.count_cons_of_ne (fun h => h2 h.symm),
          List.count_cons_of_ne (fun h => h2 h.symm), ih]

/-- C7: normalization is idempotent — stripping, alias renames and
numeric coercion applied twice give the table of one application — and
the normalized column list is the function `normCols` of the raw
column list alone. -/
theorem c7_normalize_idempotent (t : Table) :
    normalizeTable (normalizeTable t) = normalizeTable t ∧
    (normalizeTable t).cols = normCols t.cols := by
  refine ⟨?_, rfl⟩
  show (⟨normCols (normCols t.cols),
      (t.rows.map (List.zipWith coerceCell (normCols t.cols))).map
        (List.zipWith coerceCell (normCols (normCols t.cols)))⟩ : Table)
    = ⟨normCols t.cols, t.rows.map (List.zipWith coerceCell (normCols t.cols))⟩
  rw [normCols_idem]
  congr 1
  rw [List.map_map]
  exact List.map_congr_left (fun r _ => zipWith_coerce_idem _ r)

/-- C4 (amended): the `Project` → `Project Name` rename is conditioned
on the absence of the canonical name, so a table already containing
`Project Name` keeps its columns unchanged by it; the
`Campaign ID` → `Camp_ID` rename fires whenever the alias is present
regardless of `Camp_ID` — a table without the alias is unchanged, but
when both alias and canonical name are present the rename produces a
duplicate `Camp_ID` label (the count of `Camp_ID` labels grows by the
count of `Campaign ID` labels). -/
theorem c4_alias_renames (cols : List String) :
    ("Project Name" ∈ cols → projectRename cols = cols) ∧
    ("Campaign ID" ∉ cols → campaignRename cols = cols) ∧
    ("Campaign ID" ∈ cols →
      (campaignRename cols).count "Camp_ID"
        = cols.count "Camp_ID" + cols.count "Campaign ID") := by
  refine ⟨?_, campaignRename_of_not_mem, ?_⟩
  · intro h
    rw [projectRename, if_neg (fun h2 => h2.2 h)]
  · intro h
    rw [campaignRename, if_pos h, renameName]
    exact count_map_rename _ _ (by decide) cols

/-- C4 witness: the three amended conclusions at concrete column
lists. -/
theorem c4_alias_renames_witness :
    projectRename ["Project", "Project Name"] = ["Project", "Project Name"] ∧
    campaignRename ["Foo"] = ["Foo"] ∧
    (campaignRename ["Campaign ID", "Camp_ID"]).count "Camp_ID"
      = (["Campaign ID", "Camp_ID"] : List String).count "Camp_ID"
        + (["Campaign ID", "Camp_ID"] : List String).count "Campaign ID" :=
  ⟨(c4_alias_renames _).1 (by decide), (c4_alias_renames _).2.1 (by decide),
    (c4_alias_renames _).2.2 (by decide)⟩

/-- C4 counterexample: a table whose columns already contain the
canonical `Camp_ID` is still renamed — the alias rename is not
conditioned on the canonical name being absent — and the result
carries a duplicate `Camp_ID` column. -/
theorem c4_counterexample :
    "Camp_ID" ∈ (["Campaign ID", "Camp_ID"] : List String) ∧
    campaignRename ["Campaign ID", "Camp_ID"] = ["Camp_ID", "Camp_ID"] ∧
    (campaignRename ["Campaign ID", "Camp_ID"]).count "Camp_ID" = 2 := by
  decide

theorem rowFilter_true (t : Table) : rowFilter t (fun _ => true) = t := by
  unfold rowFilter
  rw [List.filter_true]

theorem stepDate_eq (dr : List ℤ) (t : Table) :
    stepDate dr t = rowFilter t (dateP t.cols dr) := by
  rcases dr with _ | ⟨s, _ | ⟨e, _ | ⟨x, rest⟩⟩⟩
  · exact (rowFilter_true t).symm
  · exact (rowFilter_true t).symm
  · rfl
  · exact (rowFilter_true t).symm

theorem stepCamp_eq (cf : List Cell) (t : Table) :
    stepCamp cf t = rowFilter t (campP t.cols cf) := by
  cases cf with
  | nil =>
    rw [stepCamp, if_pos rfl]
    exact (rowFilter_true t).symm
  | cons a l =>
    rw [stepCamp, if_neg (by simp)]
    rfl

theorem stepProj_eq (pf : List Cell) (t : Table) :
    stepProj pf t = rowFilter t (projP t.cols pf) := by
  cases pf with
  | nil =>
    rw [stepProj, if_pos rfl]
    exact (rowFilter_true t).symm
  | cons a l =>
    rw [stepProj, if_neg (by simp)]
    rfl

theorem rowFilter_two (t : Table) (p q : List Cell → Bool) :
    rowFilter (rowFilter t p) q = rowFilter t (fun r => p r && q r) := by
  unfold rowFilter
  simp only [List.filter_filter]
  exact congrArg (Table.mk t.cols) (List.filter_congr (fun x _ => Bool.and_comm _ _))

theorem rowFilter_ext (t : Table) {p q : List Cell → Bool} (h : ∀ r, p r = q r) :
    rowFilter t p = rowFilter t q := by
  have he : p = q := funext h
  rw [he]

theorem rowFilter_cols (t : Table) (p : List Cell → Bool) :
    (rowFilter t p).cols = t.cols := rfl

/-- C8: the sidebar filters compose order-independently — the block as
written (date range, then campaign, then project) equals the one-pass
conjunction of the three predicates and equals every other application
order — and an absent or empty filter filters nothing: a date widget
without two endpoints and empty selections are the identity. -/
theorem c8_filter_order_independent (t : Table) (dr : List ℤ) (cf pf : List Cell) :
    (filtered_df t dr cf pf
      = rowFilter t (fun r => dateP t.cols dr r && campP t.cols cf r && projP t.cols pf r)) ∧
    filtered_df t dr cf pf = stepCamp cf (stepProj pf (stepDate dr t)) ∧
    filtered_df t dr cf pf = stepDate dr (stepCamp cf (stepProj pf t)) ∧
    filtered_df t dr cf pf = stepDate dr (stepProj pf (stepCamp cf t)) ∧
    filtered_df t dr cf pf = stepCamp cf (stepDate dr (stepProj pf t)) ∧
    filtered_df t dr cf pf = stepProj pf (stepDate dr (stepCamp cf t)) ∧
    stepDate [] t = t ∧ (∀ d : ℤ, stepDate [d] t = t) ∧
    stepCamp [] t = t ∧ stepProj [] t = t ∧ filtered_df t [] [] [] = t := by
  have hcanon : filtered_df t dr cf pf
      = rowFilter t (fun r => dateP t.cols dr r && campP t.cols cf r && projP t.cols pf r) := by
    show stepProj pf (stepCamp cf (stepDate dr t)) = _
    rw [stepDate_eq, stepCamp_eq, rowFilter_two, stepProj_eq, rowFilter_two]
    simp only [rowFilter_cols]
  have horder : ∀ u : Table, u.cols = t.cols →
      stepProj pf (stepCamp cf (stepDate dr u)) = filtered_df u dr cf pf := fun u _ => rfl
  have h2 : filtered_df t dr cf pf = stepCamp cf (stepProj pf (stepDate dr t)) := by
    rw [hcanon, stepDate_eq, stepProj_eq, rowFilter_two, stepCamp_eq, rowFilter_two]
    simp only [rowFilter_cols]
    exact rowFilter_ext t (fun r => by
      cases dateP t.cols dr r <;> cases campP t.cols cf r <;> cases projP t.cols pf r <;> rfl)
  have h3 : filtered_df t dr cf pf = stepDate dr (stepCamp cf (stepProj pf t)) := by
    rw [hcanon, stepProj_eq, stepCamp_eq, rowFilter_two, stepDate_eq, rowFilter_two]
    simp only [rowFilter_cols]
    exact rowFilter_ext t (fun r => by
      cases dateP t.cols dr r <;> cases campP t.cols cf r <;> cases projP t.cols pf r <;> rfl)
  have h4 : filtered_df t dr cf pf = stepDate dr (stepProj pf (stepCamp cf t)) := by
    rw [hcanon, stepCamp_eq, stepProj_eq, rowFilter_two, stepDate_eq, rowFilter_two]
    simp only [rowFilter_cols]
    exact rowFilter_ext t (fun r => by
      cases dateP t.cols dr r <;> cases campP t.cols cf r <;> cases projP t.cols pf r <;> rfl)
  have h5 : filtered_df t dr cf pf = stepCamp cf (stepDate dr (stepProj pf t)) := by
    rw [hcanon, stepProj_eq, stepDate_eq, rowFilter_two, stepCamp_eq, rowFilter_two]
    simp only [rowFilter_cols]
    exact rowFilter_ext t (fun r => by
      cases dateP t.cols dr r <;> cases campP t.cols cf r <;> cases projP t.cols pf r <;> rfl)
  have h6 : filtered_df t dr cf pf = stepProj pf (stepDate dr (stepCamp cf t)) := by
    rw [hcanon, stepCamp_eq, stepDate_eq, rowFilter_two, stepProj_eq, rowFilter_two]
    simp only [rowFilter_cols]
    exact rowFilter_ext t (fun r => by
      cases dateP t.cols dr r <;> cases campP t.cols cf r <;> cases projP t.cols pf r <;> rfl)
  have hc0 : stepCamp [] t = t := by rw [stepCamp, if_pos rfl]
  have hp0 : stepProj [] t = t := by rw [stepProj, if_pos rfl]
  have hf0 : filtered_df t [] [] [] = t := by
    show stepProj [] (stepCamp [] (stepDate [] t)) = t
    rw [stepCamp, if_pos rfl, stepProj, if_pos rfl]
    rfl
  exact ⟨hcanon, h2, h3, h4, h5, h6, rfl, fun d => rfl, hc0, hp0, hf0⟩

/-- C9 (amended): filtering is a pure transform — the filtered view
keeps the summary's columns and its rows are a sublist of the
summary's rows, and the summary frame itself is not written to — but
`prepare_summary` does mutate the caller's frames: after the call the
churn frame has been stripped and alias-renamed in place and the cost
frame has been stripped in place. -/
theorem c9_frame_effects (t : Table) (dr : List ℤ) (cf pf : List Cell) (churn cs : Table) :
    (filtered_df t dr cf pf).cols = t.cols ∧
    (filtered_df t dr cf pf).rows.Sublist t.rows ∧
    (prepare_summary churn cs).1 = normalizedChurn churn ∧
    (prepare_summary churn cs).2.1 = stripCols cs := by
  refine ⟨?_, ?_, rfl, rfl⟩
  · show (stepProj pf (stepCamp cf (stepDate dr t))).cols = t.cols
    rw [stepProj_eq, stepCamp_eq, stepDate_eq]
    rfl
  · show (stepProj pf (stepCamp cf (stepDate dr t))).rows.Sublist t.rows
    rw [stepProj_eq, stepCamp_eq, stepDate_eq]
    exact (List.filter_sublist _).trans ((List.filter_sublist _).trans (List.filter_sublist _))

/-- C9 counterexample: `prepare_summary` does not leave the caller's
churn frame unchanged — the padded alias header ` Campaign ID ` has
been stripped and renamed to `Camp_ID` in the frame the caller still
holds. -/
theorem c9_counterexample :
    (prepare_summary exMutChurn exCs).1 ≠ exMutChurn ∧
    (prepare_summary exMutChurn exCs).1.cols = ["Camp_ID"] := by
  decide

theorem colIdx_eq_none {cols : List String} {c : String} :
    colIdx cols c = none ↔ c ∉ cols := by
  unfold colIdx
  rw [List.findIdx?_eq_none_iff]
  constructor
  · intro h hc
    have h2 := h c hc
    simp at h2
  · intro h x hx
    by_cases hxc : x = c
    · exact absurd (hxc ▸ hx) h
    · simp [hxc]

theorem colIdx_spec {cols : List String} {c : String} {i : ℕ} (h : colIdx cols c = some i) :
    i < cols.length ∧ cols.getD i "" = c := by
  unfold colIdx at h
  obtain ⟨hlt, hp, _⟩ := List.findIdx?_eq_some_iff_getElem.mp h
  refine ⟨hlt, ?_⟩
  rw [List.getD_eq_getElem _ _ hlt]
  exact of_decide_eq_true hp

theorem colIdx_append_left {l1 : List String} (l2 : List String) {c : String} (h : c ∈ l1) :
    colIdx (l1 ++ l2) c = colIdx l1 c := by
  unfold colIdx
  rw [List.findIdx?_append]
  cases hfi : l1.findIdx? (fun x => decide (x = c)) with
  | none =>
    exfalso
    have h2 := List.findIdx?_eq_none_iff.mp hfi c h
    simp at h2
  | some i => rfl

theorem colIdx_append_right {l1 l2 : List String} {c : String} (h : c ∉ l1) :
    colIdx (l1 ++ l2) c = (colIdx l2 c).map (fun i => i + l1.length) := by
  unfold colIdx
  rw [List.findIdx?_append]
  have h2 : l1.findIdx? (fun x => decide (x = c)) = none := by
    rw [List.findIdx?_eq_none_iff]
    intro x hx
    by_cases hxc : x = c
    · exact absurd (hxc ▸ hx) h
    · simp [hxc]
  rw [h2]
  rfl

theorem getD_map {α β : Type} (f : α → β) (d1 : α) (d2 : β) :
    ∀ (l : List α) (i : ℕ), i < l.length → (l.map f).getD i d2 = f (l.getD i d1)
  | a :: l, 0, _ => rfl
  | a :: l, i + 1, h => by
    simp only [List.map_cons, List.getD_cons_succ]
    exact getD_map f d1 d2 l i (by simpa using h)

theorem lookupCell_append_new {cols : List String} {name : String} {r : List Cell} {x : Cell}
    (h : name ∉ cols) (hlen : r.length = cols.length) :
    lookupCell (cols ++ [name]) name (r ++ [x]) = x := by
  unfold lookupCell
  rw [colIdx_append_right h]
  have h0 : colIdx [name] name = some 0 := by
    simp [colIdx, List.findIdx?_cons]
  rw [h0]
  show (r ++ [x]).getD (0 + cols.length) Cell.nan = x
  rw [List.getD_append_right _ _ _ _ (by omega)]
  have h1 : 0 + cols.length - r.length = 0 := by omega
  rw [h1]
  rfl

theorem lookupCell_append_old {cols : List String} {c name : String} {r : List Cell} {x : Cell}
    (hc : c ∈ cols) (hlen : r.length = cols.length) :
    lookupCell (cols ++ [name]) c (r ++ [x]) = lookupCell cols c r := by
  unfold lookupCell
  rw [colIdx_append_left _ hc]
  cases hi : colIdx cols c with
  | none => rfl
  | some i =>
    obtain ⟨hlt, _⟩ := colIdx_spec hi
    show (r ++ [x]).getD i Cell.nan = r.getD i Cell.nan
    exact List.getD_append _ _ _ _ (by omega)

theorem setCol_not_mem {t : Table} {name : String} (f : List Cell → Cell)
    (h : name ∉ t.cols) :
    setCol t name f = ⟨t.cols ++ [name], t.rows.map (fun r => r ++ [f r])⟩ := by
  unfold setCol
  rw [show colIdx t.cols name = none from colIdx_eq_none.mpr h]

theorem mem_group_cols {x : String} {cols : List String} (h : x ∈ group_cols cols) :
    x ∈ ["Date", "Camp_ID", "Project Name", "Audience_ID", "Objectives"] := by
  unfold group_cols at h
  rcases List.mem_append.mp h with h | h
  · rcases List.mem_append.mp h with h | h
    · simp only [List.mem_cons, List.not_mem_nil, or_false] at h
      rcases h with rfl | rfl | rfl <;> decide
    · split_ifs at h
      · simp only [List.mem_singleton] at h
        subst h
        decide
      · exact absurd h (List.not_mem_nil x)
  · split_ifs at h
    · simp only [List.mem_singleton] at h
      subst h
      decide
    · exact absurd h (List.not_mem_nil x)

theorem presentMetrics_sub {m : String} {cols : List String} (h : m ∈ presentMetrics cols) :
    m ∈ agg_metric_cols ∧ m ∈ cols := by
  unfold presentMetrics at h
  have h2 := List.mem_filter.mp h
  exact ⟨h2.1, of_decide_eq_true h2.2⟩

theorem metric_not_group {m : String} (hm : m ∈ agg_metric_cols) (cols : List String) :
    m ∉ group_cols cols := by
  intro h
  have h5 := mem_group_cols h
  have hdisj : ∀ x ∈ agg_metric_cols,
      x ∉ ["Date", "Camp_ID", "Project Name", "Audience_ID", "Objectives"] := by decide
  exact hdisj m hm h5

theorem reply_not_summary (cols : List String) :
    "Reply %" ∉ group_cols cols ++ presentMetrics cols := by
  intro h
  rcases List.mem_append.mp h with h | h
  · exact absurd (mem_group_cols h) (by decide)
  · exact absurd (presentMetrics_sub h).1 (by decide)

theorem delivery_not_summary (cols : List String) :
    "Delivery %" ∉ group_cols cols ++ presentMetrics cols := by
  intro h
  rcases List.mem_append.mp h with h | h
  · exact absurd (mem_group_cols h) (by decide)
  · exact absurd (presentMetrics_sub h).1 (by decide)

theorem rowKey_length (cols : List String) (r : List Cell) :
    (rowKey cols r).length = (group_cols cols).length :=
  List.length_map _ _

theorem mem_sortedKeys {t : Table} {k : List Cell} :
    k ∈ sortedKeys t ↔ (validKey k = true ∧ ∃ r ∈ t.rows, rowKey t.cols r = k) := by
  unfold sortedKeys groupKeys keptRows
  rw [List.mem_insertionSort, List.mem_dedup, List.mem_map]
  constructor
  · rintro ⟨r, hr, rfl⟩
    have h2 := List.mem_filter.mp hr
    exact ⟨h2.2, r, h2.1, rfl⟩
  · rintro ⟨hv, r, hr, rfl⟩
    exact ⟨r, List.mem_filter.mpr ⟨hr, hv⟩, rfl⟩

theorem sortedKeys_length {t : Table} {k : List Cell} (h : k ∈ sortedKeys t) :
    k.length = (group_cols t.cols).length := by
  obtain ⟨_, r, _, rfl⟩ := mem_sortedKeys.mp h
  exact rowKey_length _ _

theorem summaryKeys_eq (t : Table) :
    (groupbyAgg t).rows.map (List.take (group_cols t.cols).length) = sortedKeys t := by
  show ((sortedKeys t).map _).map _ = sortedKeys t
  rw [List.map_map]
  have h : ∀ k ∈ sortedKeys t,
      (List.take (group_cols t.cols).length ∘ fun k =>
        k ++ (presentMetrics t.cols).map (fun m => Cell.num (groupSum t m k))) k = id k := by
    intro k hk
    exact List.take_left' (sortedKeys_length hk)
  rw [List.map_congr_left h, List.map_id]

theorem filter_filter_of_imp {α : Type} {p q : α → Bool} (h : ∀ r, p r = true → q r = true) :
    ∀ l : List α, (l.filter q).filter p = l.filter p
  | [] => rfl
  | a :: l => by
    have ih := filter_filter_of_imp h l
    by_cases hq : q a
    · by_cases hp : p a <;> simp [List.filter_cons, hq, hp, ih]
    · have hp : p a = false := by
        cases hpa : p a with
        | true => exact absurd (h a hpa) hq
        | false => rfl
      simp [List.filter_cons, hq, hp, ih]

theorem sum_map_filter_split {α : Type} (p : α → Bool) (f : α → ℚ) : ∀ l : List α,
    ((l.filter p).map f).sum + ((l.filter (fun a => !p a)).map f).sum = (l.map f).sum
  | [] => by simp
  | a :: l => by
    have ih := sum_map_filter_split p f l
    by_cases h : p a
    · simp only [List.filter_cons, h, if_pos, Bool.not_true, if_neg, List.map_cons,
        List.sum_cons, ite_true, Bool.false_eq_true, ite_false]
      linarith [ih]
    · have h2 : p a = false := eq_false_of_ne_true h
      simp only [List.filter_cons, h2, Bool.not_false, List.map_cons, List.sum_cons,
        Bool.false_eq_true, ite_false, ite_true]
      linarith [ih]

theorem sum_groups {α κ : Type} [DecidableEq κ] (key : α → κ) (f : α → ℚ) :
    ∀ (ks : List κ) (l : List α), ks.Nodup → (∀ r ∈ l, key r ∈ ks) →
      (ks.map (fun k => ((l.filter (fun r => decide (key r = k))).map f).sum)).sum
        = (l.map f).sum
  | [], l, _, hcov => by
    cases l with
    | nil => simp
    | cons a l => exact absurd (hcov a (List.mem_cons_self a l)) (List.not_mem_nil _)
  | k :: ks, l, hnd, hcov => by
    have hnd' := List.nodup_cons.mp hnd
    have hstep : ∀ k' ∈ ks,
        (fun k' => ((l.filter (fun r => decide (key r = k'))).map f).sum) k'
          = (fun k' => (((l.filter (fun r => !decide (key r = k))).filter
              (fun r => decide (key r = k'))).map f).sum) k' := by
      intro k' hk'
      have hne : k' ≠ k := fun he => hnd'.1 (he ▸ hk')
      have := filter_filter_of_imp (p := fun r => decide (key r = k'))
        (q := fun r => !decide (key r = k)) (fun r hr => by
          have h2 : key r = k' := of_decide_eq_true hr
          simp [h2, hne]) l
      simp only [this]
    rw [List.map_cons, List.sum_cons, List.map_congr_left hstep,
      sum_groups key f ks (l.filter (fun r => !decide (key r = k))) hnd'.2
        (fun r hr => by
          have h2 := List.mem_filter.mp hr
          rcases List.mem_cons.mp (hcov r h2.1) with h3 | h3
          · exfalso
            have h4 := h2.2
            rw [h3] at h4
            simp at h4
          · exact h3)]
    exact sum_map_filter_split (fun r => decide (key r = k)) f l

theorem lookup_summary_metric (t : Table) {m : String} (hm : m ∈ presentMetrics t.cols)
    (k : List Cell) (hk : k.length = (group_cols t.cols).length) :
    lookupCell (groupbyAgg t).cols m
      (k ++ (presentMetrics t.cols).map (fun m2 => Cell.num (groupSum t m2 k)))
      = Cell.num (groupSum t m k) := by
  have hnotdim : m ∉ group_cols t.cols := metric_not_group (presentMetrics_sub hm).1 _
  show cellAt _ (colIdx (group_cols t.cols ++ presentMetrics t.cols) m) = _
  rw [colIdx_append_right hnotdim]
  cases hi : colIdx (presentMetrics t.cols) m with
  | none => exact absurd (colIdx_eq_none.mp hi) (fun h => h hm)
  | some i =>
    obtain ⟨hlt, hget⟩ := colIdx_spec hi
    show (k ++ (presentMetrics t.cols).map fun m2 => Cell.num (groupSum t m2 k)).getD
      (i + (group_cols t.cols).length) Cell.nan = _
    rw [List.getD_append_right _ _ _ _ (by omega)]
    have h1 : i + (group_cols t.cols).length - k.length = i := by omega
    rw [h1, getD_map _ "" _ _ _ hlt, hget]

/-- C2 (amended): a group-key tuple appears in the summary exactly
when it is fully non-null and is the key of some pre-aggregation row —
`groupby` with its default `dropna=True` drops every row whose key has
a null component instead of giving it its own group, and keeps every
fully-non-null key, grouping by tuple value. -/
theorem c2_null_key_rows (t : Table)
    (_hc : ["Date", "Camp_ID", "Project Name"] ⊆ t.cols) (k : List Cell) :
    k ∈ (groupbyAgg t).rows.map (List.take (group_cols t.cols).length) ↔
      (validKey k = true ∧ ∃ r ∈ t.rows, rowKey t.cols r = k) := by
  rw [summaryKeys_eq]
  exact mem_sortedKeys

/-- C2 witness: at a concrete merged frame, the key of its rows is in
the summary and its validity and origin are checked concretely. -/
theorem c2_null_key_rows_witness :
    [Cell.date 1, Cell.str "A", Cell.str "P"]
        ∈ (groupbyAgg witAggT).rows.map (List.take (group_cols witAggT.cols).length) ↔
      (validKey [Cell.date 1, Cell.str "A", Cell.str "P"] = true ∧
        ∃ r ∈ witAggT.rows,
          rowKey witAggT.cols r = [Cell.date 1, Cell.str "A", Cell.str "P"]) :=
  c2_null_key_rows witAggT (by decide) [Cell.date 1, Cell.str "A", Cell.str "P"]

/-- C2 counterexample: a pipeline run on a churn frame whose single
row has an unparsable date yields a summary with no rows at all — the
null-keyed row was dropped by `groupby`, not kept as its own group. -/
theorem c2_counterexample :
    (prepare_summary cexNullChurn exCs).2.2
        = Except.ok ⟨["Date", "Camp_ID", "Project Name", "Sent"], []⟩ ∧
    cexNullChurn.rows ≠ [] := by
  decide

/-- C3 (amended): for every metric column the aggregation sums, the
total over the emitted summary rows equals the total of that metric's
valid values over the rows `groupby` keeps — the rows with a fully
non-null group key — not over all pre-aggregation rows. -/
theorem c3_total_preservation (t : Table) (m : String) (hm : m ∈ presentMetrics t.cols)
    (_hc : ["Date", "Camp_ID", "Project Name"] ⊆ t.cols) :
    ((groupbyAgg t).rows.map (fun r => cellQ (lookupCell (groupbyAgg t).cols m r))).sum
      = ((keptRows t).map (fun r => cellQ (lookupCell t.cols m r))).sum := by
  have h1 : (groupbyAgg t).rows.map (fun r => cellQ (lookupCell (groupbyAgg t).cols m r))
      = (sortedKeys t).map (fun k => groupSum t m k) := by
    show ((sortedKeys t).map _).map _ = _
    rw [List.map_map]
    apply List.map_congr_left
    intro k hk
    show cellQ (lookupCell (groupbyAgg t).cols m (k ++ _)) = _
    rw [lookup_summary_metric t hm k (sortedKeys_length hk)]
    rfl
  rw [h1]
  have h2 : ((sortedKeys t).map (fun k => groupSum t m k)).sum
      = ((groupKeys t).map (fun k => groupSum t m k)).sum :=
    ((List.perm_insertionSort keyLE _).map _).sum_eq
  rw [h2]
  have h3 : ∀ k ∈ groupKeys t, groupSum t m k
      = (((keptRows t).filter (fun r => decide (rowKey t.cols r = k))).map
          (fun r => cellQ (lookupCell t.cols m r))).sum := by
    intro k hk
    have hvk : validKey k = true := by
      unfold groupKeys at hk
      rw [List.mem_dedup] at hk
      obtain ⟨r, hr, rfl⟩ := List.mem_map.mp hk
      exact (List.mem_filter.mp hr).2
    unfold groupSum
    rw [qSum_eq]
    unfold keptRows
    rw [filter_filter_of_imp (p := fun r => decide (rowKey t.cols r = k))
      (q := fun r => validKey (rowKey t.cols r)) (fun r hr => by
        show validKey (rowKey t.cols r) = true
        have h4 : rowKey t.cols r = k := of_decide_eq_true hr
        rw [h4]
        exact hvk) t.rows]
  have h4 := List.map_congr_left (l := groupKeys t)
    (f := fun k => groupSum t m k)
    (g := fun k => (((keptRows t).filter (fun r => decide (rowKey t.cols r = k))).map
      (fun r => cellQ (lookupCell t.cols m r))).sum) h3
  rw [h4]
  exact sum_groups (fun r => rowKey t.cols r) (fun r => cellQ (lookupCell t.cols m r))
    (groupKeys t) (keptRows t) (List.nodup_dedup _)
    (fun r hr => by
      unfold groupKeys
      rw [List.mem_dedup]
      exact List.mem_map_of_mem _ hr)

/-- C3 witness: the total-preservation equation at a concrete merged
frame with two rows in one group. -/
theorem c3_total_preservation_witness :
    ((groupbyAgg witAggT).rows.map
        (fun r => cellQ (lookupCell (groupbyAgg witAggT).cols "Sent" r))).sum
      = ((keptRows witAggT).map (fun r => cellQ (lookupCell witAggT.cols "Sent" r))).sum :=
  c3_total_preservation witAggT "Sent" (by decide) (by decide)

/-- C3 counterexample: with one row whose date failed to parse and
whose `Sent` is 5, the summary's `Sent` total is 0 while the total of
valid `Sent` values over all pre-aggregation rows is 5 — aggregation
does not preserve totals over all rows. -/
theorem c3_counterexample :
    ((groupbyAgg cexNullMerged).rows.map
        (fun r => cellQ (lookupCell (groupbyAgg cexNullMerged).cols "Sent" r))).sum
      ≠ (cexNullMerged.rows.map (fun r => cellQ (lookupCell cexNullMerged.cols "Sent" r))).sum := by
  intro h
  have h1 : (groupbyAgg cexNullMerged).rows.map
      (fun r => cellQ (lookupCell (groupbyAgg cexNullMerged).cols "Sent" r)) = [] := by
    decide
  have h2 : cexNullMerged.rows.map (fun r => cellQ (lookupCell cexNullMerged.cols "Sent" r))
      = [(5 : ℚ)] := by
    decide
  rw [h1, h2, List.sum_nil, List.sum_singleton] at h
  exact absurd h (by norm_num)

theorem addDerived_rows_shape (u : Table) (h1 : "Reply %" ∉ u.cols)
    (h2 : "Delivery %" ∉ u.cols) :
    ∃ g : List Cell → List Cell,
      (addDerived u).rows = u.rows.map g ∧
      ∀ (r : List Cell) (n : ℕ), n ≤ r.length → (g r).take n = r.take n := by
  unfold addDerived
  by_cases c1 : "Replied" ∈ u.cols ∧ "Sent" ∈ u.cols
  · rw [if_pos c1, setCol_not_mem _ h1]
    by_cases c2 : "Delivered" ∈ u.cols ++ ["Reply %"] ∧ "Sent" ∈ u.cols ++ ["Reply %"]
    · rw [if_pos c2, setCol_not_mem _ (by
        intro hmem
        rcases List.mem_append.mp hmem with h | h
        · exact h2 h
        · simp at h)]
      refine ⟨_, by rw [List.map_map], ?_⟩
      intro r n hn
      show (((r ++ [_]) ++ [_]).take n) = r.take n
      rw [List.take_append_of_le_length (by rw [List.length_append]; omega),
        List.take_append_of_le_length hn]
    · rw [if_neg c2]
      refine ⟨_, rfl, ?_⟩
      intro r n hn
      exact List.take_append_of_le_length hn
  · rw [if_neg c1]
    by_cases c2 : "Delivered" ∈ u.cols ∧ "Sent" ∈ u.cols
    · rw [if_pos c2, setCol_not_mem _ h2]
      refine ⟨_, rfl, ?_⟩
      intro r n hn
      exact List.take_append_of_le_length hn
    · rw [if_neg c2]
      exact ⟨id, (List.map_id _).symm, fun r n _ => rfl⟩

/-- C10: the summary `prepare_summary` returns lists its rows in
nondecreasing lexicographic order of the group-key tuple (`Date`,
`Camp_ID`, `Project Name`, plus the optional dimensions when present
in the merged frame `df`), not in first-encounter order — `groupby`
sorts its keys by default. -/
theorem c10_summary_sorted (churn cs df : Table)
    (h : mergedFrame churn cs = Except.ok df)
    (s : Table) (hs : (prepare_summary churn cs).2.2 = Except.ok s) :
    List.Sorted keyLE (s.rows.map (List.take (group_cols df.cols).length)) := by
  have hps : (prepare_summary churn cs).2.2 = Except.ok (addDerived (groupbyAgg df)) := by
    show (mergedFrame churn cs).map _ = _
    rw [h]
    rfl
  rw [hps] at hs
  injection hs with hs
  subst hs
  obtain ⟨g, hg, htake⟩ := addDerived_rows_shape (groupbyAgg df)
    (reply_not_summary _) (delivery_not_summary _)
  rw [hg, List.map_map]
  have hrows : ∀ r ∈ (groupbyAgg df).rows,
      (List.take (group_cols df.cols).length ∘ g) r
        = List.take (group_cols df.cols).length r := by
    intro r hr
    obtain ⟨k, hk, rfl⟩ := List.mem_map.mp hr
    refine htake _ _ ?_
    rw [List.length_append]
    have := sortedKeys_length hk
    omega
  rw [List.map_congr_left hrows, summaryKeys_eq]
  exact List.sorted_insertionSort keyLE _

/-- C10 witness: the sortedness conclusion at a concrete run whose
input rows arrive in descending key order. -/
theorem c10_summary_sorted_witness :
    List.Sorted keyLE (exSummary.rows.map (List.take (group_cols exDf.cols).length)) :=
  c10_summary_sorted exChurn exCs exDf (by decide) exSummary (by decide)

theorem getElem?_map_some {α β : Type} {f : α → β} {l : List α} {i : ℕ} {r : α}
    (h : l[i]? = some r) : (l.map f)[i]? = some (f r) := by
  rw [List.getElem?_map, h]
  rfl

theorem addDerived_delivery (u : Table) (hs : "Sent" ∈ u.cols) (hd : "Delivered" ∈ u.cols)
    (h1 : "Reply %" ∉ u.cols) (h2 : "Delivery %" ∉ u.cols)
    {i : ℕ} {r : List Cell} (hi : u.rows[i]? = some r) (hlen : r.length = u.cols.length) :
    ∃ r2, (addDerived u).rows[i]? = some r2 ∧
      lookupCell (addDerived u).cols "Delivery %" r2
        = pdRound2 (pdMul100 (pdDiv (lookupCell u.cols "Delivered" r)
            (lookupCell u.cols "Sent" r))) := by
  unfold addDerived
  by_cases c1 : "Replied" ∈ u.cols ∧ "Sent" ∈ u.cols
  · rw [if_pos c1, setCol_not_mem _ h1]
    have hD2 : "Delivery %" ∉ u.cols ++ ["Reply %"] := by
      intro hmem
      rcases List.mem_append.mp hmem with h | h
      · exact h2 h
      · simp at h
    have c2 : "Delivered" ∈ u.cols ++ ["Reply %"] ∧ "Sent" ∈ u.cols ++ ["Reply %"] :=
      ⟨List.mem_append_left _ hd, List.mem_append_left _ hs⟩
    rw [if_pos c2, setCol_not_mem _ hD2]
    refine ⟨_, getElem?_map_some (getElem?_map_some hi), ?_⟩
    rw [lookupCell_append_new hD2 (by simp [hlen]),
      lookupCell_append_old hd hlen, lookupCell_append_old hs hlen]
  · rw [if_neg c1]
    have c2 : "Delivered" ∈ u.cols ∧ "Sent" ∈ u.cols := ⟨hd, hs⟩
    rw [if_pos c2, setCol_not_mem _ h2]
    refine ⟨_, getElem?_map_some hi, ?_⟩
    rw [lookupCell_append_new h2 hlen]

theorem addDerived_reply (u : Table) (hs : "Sent" ∈ u.cols) (hre : "Replied" ∈ u.cols)
    (h1 : "Reply %" ∉ u.cols) (h2 : "Delivery %" ∉ u.cols)
    {i : ℕ} {r : List Cell} (hi : u.rows[i]? = some r) (hlen : r.length = u.cols.length) :
    ∃ r2, (addDerived u).rows[i]? = some r2 ∧
      lookupCell (addDerived u).cols "Reply %" r2
        = pdRound2 (pdMul100 (pdDiv (lookupCell u.cols "Replied" r)
            (lookupCell u.cols "Sent" r))) := by
  unfold addDerived
  have c1 : "Replied" ∈ u.cols ∧ "Sent" ∈ u.cols := ⟨hre, hs⟩
  rw [if_pos c1, setCol_not_mem _ h1]
  by_cases c2 : "Delivered" ∈ u.cols ++ ["Reply %"] ∧ "Sent" ∈ u.cols ++ ["Reply %"]
  · have hD2 : "Delivery %" ∉ u.cols ++ ["Reply %"] := by
      intro hmem
      rcases List.mem_append.mp hmem with h | h
      · exact h2 h
      · simp at h
    rw [if_pos c2, setCol_not_mem _ hD2]
    refine ⟨_, getElem?_map_some (getElem?_map_some hi), ?_⟩
    rw [lookupCell_append_old (List.mem_append_right _ (by simp)) (by simp [hlen]),
      lookupCell_append_new h1 hlen]
  · rw [if_neg c2]
    refine ⟨_, getElem?_map_some hi, ?_⟩
    rw [lookupCell_append_new h1 hlen]

/-- C1 (amended): the derivation never raises, and for a group whose
summed `Sent` is zero each derived ratio — `Reply %` and `Delivery %`
alike — is NaN, the pandas missing marker, exactly when its numerator
is also zero; a nonzero numerator over a zero `Sent` produces a signed
infinity, which flows into the summary. -/
theorem c1_zero_sent_ratio (u : Table) (i : ℕ) (r : List Cell) (m n : ℚ)
    (hs : "Sent" ∈ u.cols) (hre : "Replied" ∈ u.cols) (hd : "Delivered" ∈ u.cols)
    (h1 : "Reply %" ∉ u.cols) (h2 : "Delivery %" ∉ u.cols)
    (hi : u.rows[i]? = some r) (hlen : r.length = u.cols.length)
    (h0 : lookupCell u.cols "Sent" r = Cell.num 0)
    (hm : lookupCell u.cols "Replied" r = Cell.num m)
    (hn : lookupCell u.cols "Delivered" r = Cell.num n) :
    ∃ r2, (addDerived u).rows[i]? = some r2 ∧
      lookupCell (addDerived u).cols "Reply %" r2
        = (if m = 0 then Cell.nan else if 0 < m then Cell.pinf else Cell.ninf) ∧
      lookupCell (addDerived u).cols "Delivery %" r2
        = (if n = 0 then Cell.nan else if 0 < n then Cell.pinf else Cell.ninf) := by
  obtain ⟨r2, hr2, hlookR⟩ := addDerived_reply u hs hre h1 h2 hi hlen
  obtain ⟨r2', hr2', hlookD⟩ := addDerived_delivery u hs hd h1 h2 hi hlen
  rw [hr2] at hr2'
  injection hr2' with hr2'
  subst hr2'
  refine ⟨r2, hr2, ?_, ?_⟩
  · rw [hlookR, h0, hm]
    by_cases hm0 : m = 0
    · simp [pdDiv, pdMul100, pdRound2, hm0]
    · by_cases hpos : 0 < m
      · simp [pdDiv, pdMul100, pdRound2, hm0, hpos]
      · simp [pdDiv, pdMul100, pdRound2, hm0, hpos]
  · rw [hlookD, h0, hn]
    by_cases hn0 : n = 0
    · simp [pdDiv, pdMul100, pdRound2, hn0]
    · by_cases hpos : 0 < n
      · simp [pdDiv, pdMul100, pdRound2, hn0, hpos]
      · simp [pdDiv, pdMul100, pdRound2, hn0, hpos]

/-- C1 witness: the amended conclusion at a one-row summary with
`Sent` 0, `Replied` 2 and `Delivered` 3. -/
theorem c1_zero_sent_ratio_witness :
    ∃ r2, (addDerived witC1T).rows[0]? = some r2 ∧
      lookupCell (addDerived witC1T).cols "Reply %" r2
        = (if (2 : ℚ) = 0 then Cell.nan else if 0 < (2 : ℚ) then Cell.pinf else Cell.ninf) ∧
      lookupCell (addDerived witC1T).cols "Delivery %" r2
        = (if (3 : ℚ) = 0 then Cell.nan else if 0 < (3 : ℚ) then Cell.pinf else Cell.ninf) :=
  c1_zero_sent_ratio witC1T 0 [Cell.num 0, Cell.num 2, Cell.num 3] 2 3 (by decide)
    (by decide) (by decide) (by decide) (by decide) (by decide) (by decide) (by decide)
    (by decide) (by decide)

/-- C1 counterexample: a full run on a churn row with `Sent` 0 and
`Delivered` 3 puts positive infinity — not a null/missing marker —
into the summary's `Delivery %`. -/
theorem c1_counterexample :
    (prepare_summary cexC1Churn exCs).2.2 = Except.ok cexC1Summary ∧
    lookupCell cexC1Summary.cols "Sent" (cexC1Summary.rows.getD 0 []) = Cell.num 0 ∧
    lookupCell cexC1Summary.cols "Delivery %" (cexC1Summary.rows.getD 0 []) = Cell.pinf ∧
    Cell.pinf ≠ Cell.nan := by
  decide

/-- C5 (amended): each defined ratio — `Reply %` and `Delivery %`
alike — is its exact quotient times 100, rounded to 2 decimal places
after the division — but with ties rounded half-to-even (the `numpy`
rounding behind `Series.round`), not half-away-from-zero. -/
theorem c5_round_half_even (u : Table) (i : ℕ) (r : List Cell) (d n p : ℚ)
    (hs : "Sent" ∈ u.cols) (hre : "Replied" ∈ u.cols) (hde : "Delivered" ∈ u.cols)
    (h1 : "Reply %" ∉ u.cols) (h2 : "Delivery %" ∉ u.cols)
    (hi : u.rows[i]? = some r) (hlen : r.length = u.cols.length)
    (hd0 : d ≠ 0)
    (hsent : lookupCell u.cols "Sent" r = Cell.num d)
    (hrep : lookupCell u.cols "Replied" r = Cell.num n)
    (hdel : lookupCell u.cols "Delivered" r = Cell.num p) :
    ∃ r2, (addDerived u).rows[i]? = some r2 ∧
      lookupCell (addDerived u).cols "Reply %" r2 = Cell.num (round2 (n / d * 100)) ∧
      lookupCell (addDerived u).cols "Delivery %" r2 = Cell.num (round2 (p / d * 100)) := by
  obtain ⟨r2, hr2, hlookR⟩ := addDerived_reply u hs hre h1 h2 hi hlen
  obtain ⟨r2', hr2', hlookD⟩ := addDerived_delivery u hs hde h1 h2 hi hlen
  rw [hr2] at hr2'
  injection hr2' with hr2'
  subst hr2'
  refine ⟨r2, hr2, ?_, ?_⟩
  · rw [hlookR, hsent, hrep]
    simp only [pdDiv, if_neg hd0, pdMul100, pdRound2]
    rw [qDiv_eq, qMul_eq]
  · rw [hlookD, hsent, hdel]
    simp only [pdDiv, if_neg hd0, pdMul100, pdRound2]
    rw [qDiv_eq, qMul_eq]

/-- C5 witness: the amended conclusion at a one-row summary with
`Sent` 32, `Replied` 1 and `Delivered` 16. -/
theorem c5_round_half_even_witness :
    ∃ r2, (addDerived witC5T).rows[0]? = some r2 ∧
      lookupCell (addDerived witC5T).cols "Reply %" r2
        = Cell.num (round2 ((1 : ℚ) / 32 * 100)) ∧
      lookupCell (addDerived witC5T).cols "Delivery %" r2
        = Cell.num (round2 ((16 : ℚ) / 32 * 100)) :=
  c5_round_half_even witC5T 0 [Cell.num 32, Cell.num 1, Cell.num 16] 32 1 16 (by decide)
    (by decide) (by decide) (by decide) (by decide) (by decide) (by decide) (by norm_num)
    (by decide) (by decide) (by decide)

/-- C5 counterexample: with `Sent` 32 and `Replied` 1 the exact ratio
times 100 is 3.125; the code emits 3.12 (ties to even) where
half-away-from-zero rounding demands 3.13. -/
theorem c5_counterexample :
    (addDerived cexRoundT).rows = [[Cell.num 32, Cell.num 1, Cell.num (mkRat 78 25)]] ∧
    specRoundHalfAwayTo2 ((1 : ℚ) / 32 * 100) = mkRat 313 100 ∧
    (mkRat 78 25 : ℚ) ≠ mkRat 313 100 := by
  refine ⟨by decide, ?_, by decide⟩
  rw [specRoundHalfAwayTo2, roundHalfAway, Rat.mkRat_eq_div]
  norm_num

/-- C6 (amended): when the join key `Camp_ID` is absent from either
normalized input frame, no merge is attempted and the summary
computation fails with the pandas `KeyError` naming the missing key;
that error carries no column list (only the separate missing-`Date`
report of lines 73-76 prints one) and nothing catches it. -/
theorem c6_missing_key (churn cs : Table)
    (h : "Camp_ID" ∉ (normalizedChurn churn).cols ∨ "Camp_ID" ∉ (stripCols cs).cols) :
    (prepare_summary churn cs).2.2 = Except.error (.keyError "Camp_ID") ∧
    errorColumns (.keyError "Camp_ID") = none := by
  refine ⟨?_, rfl⟩
  have hm : mergeTables (normalizedChurn churn) (stripCols cs)
      = Except.error (.keyError "Camp_ID") := by
    unfold mergeTables
    rw [if_neg]
    intro h2
    rcases h with h | h
    · exact h h2.1
    · exact h h2.2
  show ((mergedFrame churn cs).map fun df => addDerived (groupbyAgg df))
      = Except.error (.keyError "Camp_ID")
  unfold mergedFrame
  rw [hm]
  rfl

/-- C6 witness: the amended conclusion at a churn frame with no
campaign-id column at all. -/
theorem c6_missing_key_witness :
    (prepare_summary exNoKeyChurn exNoKeyCs).2.2 = Except.error (.keyError "Camp_ID") ∧
    errorColumns (.keyError "Camp_ID") = none :=
  c6_missing_key exNoKeyChurn exNoKeyCs (Or.inl (by decide))

/-- C6 counterexample: on concrete frames without the join key the
computation fails with a bare `KeyError`, and the error that is
produced carries no column list — there is no `SchemaError` reporting
the offending frame's columns. -/
theorem c6_counterexample :
    (prepare_summary exNoKeyChurn exNoKeyCs).2.2 = Except.error (.keyError "Camp_ID") ∧
    (∀ e, (prepare_summary exNoKeyChurn exNoKeyCs).2.2 = Except.error e →
      errorColumns e = none) := by
  refine ⟨by decide, ?_⟩
  intro e he
  have h1 : (prepare_summary exNoKeyChurn exNoKeyCs).2.2
      = Except.error (.keyError "Camp_ID") := by decide
  rw [h1] at he
  injection he with he
  rw [← he]
  rfl
